import Mathlib

/-!
Verification of the winramp audio engine core against its specification.

The development shallowly embeds the Go sources of the repository:

* `internal/audio/player.go` — the `Player` control surface (Load / Play /
  Pause / Stop / Seek / SetNextTrack), its single-slot control channels and
  the playback-loop servicing of those channels, plus the ten-band
  `Equalizer` and the `BiquadFilter` primitive that live in the same file;
* `internal/audio/dsp/effects.go` — the `Crossfader` and `ReplayGain`
  effects;
* `internal/audio/decoder/flac.go` / `interface.go` — the decoder seek and
  duration arithmetic the player relies on.

Floating-point samples, gains and filter state (`float32` / `float64` in Go)
are embedded as real numbers; `time.Duration` values are embedded as
rational numbers of seconds (Go stores nanoseconds in an `int64`; the
claims under study do not depend on nanosecond truncation).  Go's buffered
channels of capacity one are embedded as single slots: a non-blocking
`select`-with-`default` send fills the slot when it is empty and is dropped
when it is full, which is exactly the behaviour of
`make(chan T, 1)` + `select`/`default` against a busy receiver.
-/

set_option linter.unnecessarySeqFocus false

namespace Winramp

/-! ## BiquadFilter (player.go, second half: `BiquadFilter`) -/

/-- Shallow embedding of the Go `BiquadFilter` struct: five normalized
coefficients and per-channel `(x1,x2,y1,y2)` history, over `ℝ`. -/
structure BiquadFilter where
  b0 : ℝ
  b1 : ℝ
  b2 : ℝ
  a1 : ℝ
  a2 : ℝ
  x1L : ℝ
  x2L : ℝ
  y1L : ℝ
  y2L : ℝ
  x1R : ℝ
  x2R : ℝ
  y1R : ℝ
  y2R : ℝ
  sampleRate : ℕ

/-- Embedding of `NewBiquadFilter`: identity coefficients, zero state. -/
noncomputable def NewBiquadFilter (sampleRate : ℕ) : BiquadFilter :=
  { b0 := 1, b1 := 0, b2 := 0, a1 := 0, a2 := 0
    x1L := 0, x2L := 0, y1L := 0, y2L := 0
    x1R := 0, x2R := 0, y1R := 0, y2R := 0
    sampleRate := sampleRate }

/-- Embedding of `BiquadFilter.SetCoefficients`: replaces the five
coefficients, leaving the filter state untouched. -/
noncomputable def BiquadFilter.SetCoefficients (f : BiquadFilter)
    (b0 b1 b2 a1 a2 : ℝ) : BiquadFilter :=
  { f with b0 := b0, b1 := b1, b2 := b2, a1 := a1, a2 := a2 }

/-- One iteration of the loop body of `BiquadFilter.Process` (mono/left
channel): `y0 = b0*x0 + b1*x1 + b2*x2 - a1*y1 - a2*y2`, then the history
shifts. Returns the output sample and the updated filter. -/
noncomputable def biquadStep (f : BiquadFilter) (x0 : ℝ) : ℝ × BiquadFilter :=
  let y0 := f.b0 * x0 + f.b1 * f.x1L + f.b2 * f.x2L - f.a1 * f.y1L - f.a2 * f.y2L
  (y0, { f with x1L := x0, x2L := f.x1L, y1L := y0, y2L := f.y1L })

/-- Embedding of `BiquadFilter.Process` on a mono sample slice: the Go code
mutates the slice in place and writes the final `(x1,x2,y1,y2)` back into
the struct; here the transformed list and the updated filter are returned. -/
noncomputable def BiquadFilter.Process : BiquadFilter → List ℝ → List ℝ × BiquadFilter
  | f, [] => ([], f)
  | f, x :: xs =>
    let s := biquadStep f x
    let r := BiquadFilter.Process s.2 xs
    (s.1 :: r.1, r.2)

/-- Claim C7.  Biquad filtering is chunk-invariant: processing `xs ++ ys` in
one call equals processing `xs` and then `ys` with the filter state carried
over between the calls, both in output and in final state. -/
theorem biquad_process_chunk_invariant (f : BiquadFilter) (xs ys : List ℝ) :
    f.Process (xs ++ ys) =
      (((f.Process xs).1 ++ ((f.Process xs).2.Process ys).1),
        ((f.Process xs).2.Process ys).2) := by
  induction xs generalizing f with
  | nil => simp [BiquadFilter.Process]
  | cons x xs ih =>
    simp only [List.cons_append, BiquadFilter.Process, List.append_eq, ih]

/-! ## Equalizer (player.go, second half: `Equalizer`) -/

/-- Embedding of the Go `EqualizerBand` struct. -/
structure EqualizerBand where
  Frequency : ℝ
  Gain : ℝ
  Q : ℝ

/-- Embedding of the Go `Equalizer` struct: ten bands, ten biquad filters,
an enabled flag and the sample rate (the `sync.RWMutex` guards concurrent
access and has no sequential content). -/
structure Equalizer where
  bands : Fin 10 → EqualizerBand
  filters : Fin 10 → BiquadFilter
  enabled : Bool
  sampleRate : ℕ

/-- Embedding of `Equalizer.updateFilter`: derives the peaking-EQ biquad
coefficients from the band's `(Gain, Frequency, Q)` and the sample rate and
stores them (normalized by `a0`) into the band's filter.  The Go guard
`band < 0 || band >= 10` is carried by the `Fin 10` index. -/
noncomputable def Equalizer.updateFilter (eq : Equalizer) (band : Fin 10) : Equalizer :=
  let b := eq.bands band
  let gain := Real.rpow 10 (b.Gain / 20)
  let omega := 2 * Real.pi * b.Frequency / (eq.sampleRate : ℝ)
  let cosOmega := Real.cos omega
  let sinOmega := Real.sin omega
  let alpha := sinOmega / (2 * b.Q)
  let a := gain
  let b0 := 1 + alpha * a
  let b1 := -2 * cosOmega
  let b2 := 1 - alpha * a
  let a0 := 1 + alpha / a
  let a1 := -2 * cosOmega
  let a2 := 1 - alpha / a
  { eq with
      filters := Function.update eq.filters band
        ((eq.filters band).SetCoefficients (b0 / a0) (b1 / a0) (b2 / a0) (a1 / a0) (a2 / a0)) }

/-- The gain clamp used by `SetBandGain` and `SetAllBands`:
`if gain < -12 { gain = -12 } else if gain > 12 { gain = 12 }`. -/
noncomputable def clampGain (gain : ℝ) : ℝ :=
  if gain < -12 then -12 else if gain > 12 then 12 else gain

/-- Errors of the dsp package (`effects.go`). -/
inductive DspError where
  | invalidParameter
  | effectNotFound
deriving DecidableEq

/-- Embedding of `Equalizer.SetBandGain`: rejects an out-of-range band index
with `ErrInvalidParameter`, clamps the gain to `[-12, 12]`, stores it and
recomputes the band's filter coefficients. -/
noncomputable def Equalizer.SetBandGain (eq : Equalizer) (band : ℤ) (gain : ℝ) :
    Except DspError Equalizer :=
  if h : band < 0 ∨ 10 ≤ band then .error .invalidParameter
  else
    let i : Fin 10 := ⟨band.toNat, by omega⟩
    .ok (({ eq with
        bands := Function.update eq.bands i { eq.bands i with Gain := clampGain gain } }).updateFilter i)

/-- Embedding of `Equalizer.GetBandGain`: `0` for an out-of-range band index,
otherwise the stored gain. -/
noncomputable def Equalizer.GetBandGain (eq : Equalizer) (band : ℤ) : ℝ :=
  if h : band < 0 ∨ 10 ≤ band then 0
  else (eq.bands ⟨band.toNat, by omega⟩).Gain

/-- Embedding of `Equalizer.SetAllBands`: clamps and stores all ten gains and
recomputes each filter, in band order. -/
noncomputable def Equalizer.SetAllBands (eq : Equalizer) (gains : Fin 10 → ℝ) : Equalizer :=
  (List.finRange 10).foldl
    (fun e i =>
      ({ e with bands := Function.update e.bands i { e.bands i with Gain := clampGain (gains i) } }).updateFilter i)
    eq

/-- Embedding of `Equalizer.SetEnabled`. -/
noncomputable def Equalizer.SetEnabled (eq : Equalizer) (enabled : Bool) : Equalizer :=
  { eq with enabled := enabled }

/-- Embedding of `Equalizer.Process`: a no-op when disabled, otherwise the
ten band filters are applied to the sample slice in series.  The Go code
mutates the slice and the filter states in place; here the transformed list
and the updated equalizer are returned. -/
noncomputable def Equalizer.Process (eq : Equalizer) (samples : List ℝ) :
    List ℝ × Equalizer :=
  if eq.enabled = false then (samples, eq)
  else
    (List.finRange 10).foldl
      (fun acc i =>
        let r := (acc.2.filters i).Process acc.1
        (r.1, { acc.2 with filters := Function.update acc.2.filters i r.2 }))
      (samples, eq)

/-- The fixed band center frequencies of `NewEqualizer`. -/
noncomputable def eqFrequencies : Fin 10 → ℝ :=
  ![31.25, 62.5, 125, 250, 500, 1000, 2000, 4000, 8000, 16000]

/-- Embedding of `NewEqualizer`: ten bands at the standard frequencies with
0 dB gain and Q = 0.7, fresh filters, coefficients initialized by
`updateFilter`, disabled. -/
noncomputable def NewEqualizer (sampleRate : ℕ) : Equalizer :=
  (List.finRange 10).foldl (fun e i => e.updateFilter i)
    { bands := fun i => { Frequency := eqFrequencies i, Gain := 0, Q := 0.7 }
      filters := fun _ => NewBiquadFilter sampleRate
      enabled := false
      sampleRate := sampleRate }

/-- Embedding of `Equalizer.LoadPreset`: the ten known presets load their
gain vector via `SetAllBands`; anything else hits the `default: return`
branch and changes nothing. -/
noncomputable def Equalizer.LoadPreset (eq : Equalizer) (preset : String) : Equalizer :=
  if preset = "flat" then eq.SetAllBands ![0, 0, 0, 0, 0, 0, 0, 0, 0, 0]
  else if preset = "rock" then eq.SetAllBands ![5, 4, 3, 1, -1, -1, 1, 3, 4, 5]
  else if preset = "pop" then eq.SetAllBands ![-2, -1, 0, 2, 4, 4, 2, 0, -1, -2]
  else if preset = "jazz" then eq.SetAllBands ![0, 0, 0, 2, 4, 4, 2, 0, 0, 0]
  else if preset = "classical" then eq.SetAllBands ![0, 0, 0, 0, 0, 0, -2, -2, -2, -3]
  else if preset = "dance" then eq.SetAllBands ![6, 5, 2, 0, 0, -2, -2, -2, 0, 0]
  else if preset = "bass_boost" then eq.SetAllBands ![8, 6, 4, 2, 0, 0, 0, 0, 0, 0]
  else if preset = "treble_boost" then eq.SetAllBands ![0, 0, 0, 0, 0, 0, 2, 4, 6, 8]
  else if preset = "vocal" then eq.SetAllBands ![-2, -3, -3, 1, 4, 4, 3, 1, 0, -1]
  else if preset = "powerful" then eq.SetAllBands ![6, 5, 0, -2, 1, 3, 5, 6, 4, 0]
  else eq

theorem Equalizer.updateFilter_bands (eq : Equalizer) (i : Fin 10) :
    (eq.updateFilter i).bands = eq.bands := rfl

theorem Equalizer.updateFilter_sampleRate (eq : Equalizer) (i : Fin 10) :
    (eq.updateFilter i).sampleRate = eq.sampleRate := rfl

theorem clampGain_mem (gain : ℝ) : -12 ≤ clampGain gain ∧ clampGain gain ≤ 12 := by
  unfold clampGain
  split_ifs with h1 h2
  · norm_num
  · norm_num
  · constructor <;> linarith

/-- A sample equalizer value used to instantiate hypotheses of the
equalizer theorems on concrete inputs. -/
noncomputable def eqSample : Equalizer :=
  { bands := fun _ => { Frequency := 1000, Gain := 0, Q := 0.7 }
    filters := fun _ => NewBiquadFilter 44100
    enabled := false
    sampleRate := 44100 }

/-- Claim C5.  For an in-range band index, `SetBandGain` succeeds, the gain
subsequently stored and reported by `GetBandGain` is `clamp(g, -12, 12)`,
that value lies in `[-12, 12]`, and (given all bands were in range before)
every stored band gain remains in `[-12, 12]`. -/
theorem equalizer_setBandGain_clamps (eq : Equalizer) (band : ℤ) (gain : ℝ)
    (hband : 0 ≤ band ∧ band < 10)
    (hinv : ∀ j : Fin 10, -12 ≤ (eq.bands j).Gain ∧ (eq.bands j).Gain ≤ 12) :
    ∃ e, eq.SetBandGain band gain = .ok e
      ∧ e.GetBandGain band = clampGain gain
      ∧ (-12 ≤ clampGain gain ∧ clampGain gain ≤ 12)
      ∧ ∀ j : Fin 10, -12 ≤ (e.bands j).Gain ∧ (e.bands j).Gain ≤ 12 := by
  have hno : ¬(band < 0 ∨ 10 ≤ band) := by omega
  have hlt : band.toNat < 10 := by omega
  refine ⟨({ eq with
      bands := Function.update eq.bands ⟨band.toNat, hlt⟩
        { eq.bands ⟨band.toNat, hlt⟩ with Gain := clampGain gain } }).updateFilter
          ⟨band.toNat, hlt⟩, ?_, ?_, clampGain_mem gain, ?_⟩
  · simp only [Equalizer.SetBandGain, dif_neg hno]
  · simp only [Equalizer.GetBandGain, dif_neg hno, Equalizer.updateFilter_bands,
      Function.update_same]
  · intro j
    simp only [Equalizer.updateFilter_bands]
    by_cases hj : j = (⟨band.toNat, hlt⟩ : Fin 10)
    · subst hj
      simp only [Function.update_same]
      exact clampGain_mem gain
    · simp only [Function.update_noteq hj]
      exact hinv j

/-- Witness for claim C5 at band 3 and gain 20 on a concrete equalizer. -/
theorem equalizer_setBandGain_clamps_witness :
    ∃ e, eqSample.SetBandGain 3 20 = .ok e
      ∧ e.GetBandGain 3 = clampGain 20
      ∧ (-12 ≤ clampGain 20 ∧ clampGain 20 ≤ 12)
      ∧ ∀ j : Fin 10, -12 ≤ (e.bands j).Gain ∧ (e.bands j).Gain ≤ 12 :=
  equalizer_setBandGain_clamps eqSample 3 20 (by decide)
    (fun j => by simp only [eqSample]; norm_num)

/-- Claim C10.  `LoadPreset` with a name that is none of the ten known
presets falls through the `switch` to `default: return` and leaves the
equalizer — every band gain and every filter — unchanged. -/
theorem equalizer_loadPreset_unknown_noop (eq : Equalizer) (preset : String)
    (h : preset ∉ ["flat", "rock", "pop", "jazz", "classical", "dance",
      "bass_boost", "treble_boost", "vocal", "powerful"]) :
    eq.LoadPreset preset = eq := by
  simp only [List.mem_cons, List.not_mem_nil, or_false, not_or] at h
  obtain ⟨h1, h2, h3, h4, h5, h6, h7, h8, h9, h10⟩ := h
  simp only [Equalizer.LoadPreset, if_neg h1, if_neg h2, if_neg h3, if_neg h4, if_neg h5,
    if_neg h6, if_neg h7, if_neg h8, if_neg h9, if_neg h10]

/-- Witness for claim C10 at the unknown preset name "foo". -/
theorem equalizer_loadPreset_unknown_noop_witness :
    eqSample.LoadPreset "foo" = eqSample :=
  equalizer_loadPreset_unknown_noop eqSample "foo" (by decide)

/-! ## Claim C6: the equalizer at 0 dB is the identity transform -/

/-- A biquad whose numerator equals its denominator (`b0 = 1`, `b1 = a1`,
`b2 = a2`) and whose input history matches its output history.  Such a
filter maps every sample to itself and keeps this shape. -/
def IdFilter (f : BiquadFilter) : Prop :=
  f.b0 = 1 ∧ f.b1 = f.a1 ∧ f.b2 = f.a2 ∧ f.x1L = f.y1L ∧ f.x2L = f.y2L

/-- The filter input history matches its output history (left channel). -/
def StateBal (f : BiquadFilter) : Prop :=
  f.x1L = f.y1L ∧ f.x2L = f.y2L

theorem biquad_id_process (xs : List ℝ) :
    ∀ f : BiquadFilter, IdFilter f →
      (f.Process xs).1 = xs ∧ IdFilter (f.Process xs).2 := by
  induction xs with
  | nil => exact fun f hf => ⟨rfl, hf⟩
  | cons x xs ih =>
    intro f hf
    obtain ⟨hb0, hb1, hb2, hx1, hx2⟩ := hf
    have hstep : (biquadStep f x).1 = x := by
      simp only [biquadStep, hb0, hb1, hb2, hx1, hx2]
      ring
    have hfilt : IdFilter (biquadStep f x).2 := by
      refine ⟨hb0, hb1, hb2, ?_, ?_⟩
      · simp only [biquadStep]
        exact hstep.symm
      · simp only [biquadStep]
        exact hx1
    have hr := ih (biquadStep f x).2 hfilt
    simp only [BiquadFilter.Process]
    exact ⟨by rw [hstep, hr.1], hr.2⟩

theorem equalizer_foldl_id (l : List (Fin 10)) :
    ∀ acc : List ℝ × Equalizer, (∀ i, IdFilter (acc.2.filters i)) →
      (l.foldl
          (fun acc i =>
            let r := (acc.2.filters i).Process acc.1
            (r.1, { acc.2 with filters := Function.update acc.2.filters i r.2 }))
          acc).1 = acc.1 := by
  induction l with
  | nil => exact fun acc _ => rfl
  | cons j tl ih =>
    intro acc hacc
    have hp := biquad_id_process acc.1 (acc.2.filters j) (hacc j)
    simp only [List.foldl_cons]
    have hnext : ∀ i, IdFilter
        ((({ acc.2 with
            filters := Function.update acc.2.filters j ((acc.2.filters j).Process acc.1).2 }) :
              Equalizer).filters i) := by
      intro i
      by_cases hij : i = j
      · subst hij
        simpa only [Function.update_same] using hp.2
      · simpa only [Function.update_noteq hij] using hacc i
    calc _ = (((acc.2.filters j).Process acc.1).1 :
          List ℝ) := ih _ hnext
      _ = acc.1 := hp.1

theorem equalizer_process_id (eq : Equalizer) (samples : List ℝ)
    (h : ∀ i, IdFilter (eq.filters i)) :
    (eq.Process samples).1 = samples := by
  unfold Equalizer.Process
  split
  · rfl
  · exact equalizer_foldl_id (List.finRange 10) (samples, eq) h

theorem updateFilter_idFilter (e : Equalizer) (i : Fin 10)
    (hg : (e.bands i).Gain = 0)
    (hf0 : 0 < (e.bands i).Frequency)
    (hf1 : 2 * (e.bands i).Frequency < (e.sampleRate : ℝ))
    (hq : 0 < (e.bands i).Q)
    (hs : StateBal (e.filters i)) :
    IdFilter ((e.updateFilter i).filters i) := by
  have hsr : (0 : ℝ) < (e.sampleRate : ℝ) := by linarith
  set F := (e.bands i).Frequency with hF
  set omega := 2 * Real.pi * F / (e.sampleRate : ℝ) with homega
  have homega0 : 0 < omega := by
    apply div_pos _ hsr
    have := Real.pi_pos
    nlinarith
  have homegapi : omega < Real.pi := by
    have h1 : omega = Real.pi * (2 * F / (e.sampleRate : ℝ)) := by
      rw [homega]; ring
    have h2 : 2 * F / (e.sampleRate : ℝ) < 1 := (div_lt_one hsr).mpr hf1
    have h3 : Real.pi * (2 * F / (e.sampleRate : ℝ)) < Real.pi * 1 := by
      apply mul_lt_mul_of_pos_left h2 Real.pi_pos
    rw [h1]
    linarith
  have hsin : 0 < Real.sin omega := Real.sin_pos_of_pos_of_lt_pi homega0 homegapi
  have halpha : 0 < Real.sin omega / (2 * (e.bands i).Q) :=
    div_pos hsin (by linarith)
  set alpha := Real.sin omega / (2 * (e.bands i).Q) with halphadef
  have hgain : Real.rpow 10 ((e.bands i).Gain / 20) = 1 := by
    rw [hg, show ((0 : ℝ) / 20) = 0 by norm_num]
    exact Real.rpow_zero 10
  have ha0 : (1 : ℝ) + alpha ≠ 0 := by positivity
  simp only [Equalizer.updateFilter, Function.update_same, BiquadFilter.SetCoefficients,
    hgain, mul_one, div_one]
  refine ⟨?_, rfl, rfl, hs.1, hs.2⟩
  exact div_self ha0

theorem updateFilter_stateBal (e : Equalizer) (i j : Fin 10)
    (hs : StateBal (e.filters i)) : StateBal ((e.updateFilter j).filters i) := by
  by_cases hij : i = j
  · subst hij
    simpa only [Equalizer.updateFilter, Function.update_same,
      BiquadFilter.SetCoefficients] using hs
  · simpa only [Equalizer.updateFilter, Function.update_noteq hij] using hs

theorem updateFilter_idFilter_preserved (e : Equalizer) (i j : Fin 10)
    (hij : i ≠ j) (h : IdFilter (e.filters i)) :
    IdFilter ((e.updateFilter j).filters i) := by
  simpa only [Equalizer.updateFilter, Function.update_noteq hij] using h

/-- Band hypotheses needed for the 0 dB identity property: every band has
0 dB gain, a center frequency strictly between 0 and half the sample rate,
and a positive Q. -/
def ZeroBands (e : Equalizer) : Prop :=
  ∀ i : Fin 10, (e.bands i).Gain = 0 ∧ 0 < (e.bands i).Frequency ∧
    2 * (e.bands i).Frequency < (e.sampleRate : ℝ) ∧ 0 < (e.bands i).Q

theorem foldl_updateFilter_idFilter (l : List (Fin 10)) :
    ∀ e : Equalizer, ZeroBands e → (∀ i, StateBal (e.filters i)) →
      (∀ i, i ∈ l ∨ IdFilter (e.filters i)) →
      ∀ i, IdFilter ((l.foldl (fun a j => a.updateFilter j) e).filters i) := by
  induction l with
  | nil =>
    intro e _ _ hmem i
    rcases hmem i with h | h
    · exact absurd h (List.not_mem_nil i)
    · exact h
  | cons j tl ih =>
    intro e hz hs hmem
    simp only [List.foldl_cons]
    apply ih (e.updateFilter j)
    · intro i
      simpa only [Equalizer.updateFilter_bands, Equalizer.updateFilter_sampleRate] using hz i
    · intro i
      exact updateFilter_stateBal e i j (hs i)
    · intro i
      rcases hmem i with h | h
      · rcases List.mem_cons.mp h with h | h
        · subst h
          obtain ⟨hg, hf0, hf1, hq⟩ := hz i
          exact Or.inr (updateFilter_idFilter e i hg hf0 hf1 hq (hs i))
        · exact Or.inl h
      · by_cases hij : i = j
        · subst hij
          obtain ⟨hg, hf0, hf1, hq⟩ := hz i
          exact Or.inr (updateFilter_idFilter e i hg hf0 hf1 hq (hs i))
        · exact Or.inr (updateFilter_idFilter_preserved e i j hij h)

theorem newEqualizer_filters_idFilter :
    ∀ i, IdFilter ((NewEqualizer 44100).filters i) := by
  apply foldl_updateFilter_idFilter
  · intro i
    refine ⟨rfl, ?_, ?_, by norm_num⟩
    · fin_cases i <;> norm_num [eqFrequencies]
    · fin_cases i <;> norm_num [eqFrequencies]
  · intro i
    exact ⟨rfl, rfl⟩
  · intro i
    exact Or.inl (List.mem_finRange i)

/-- Claim C6.  With all ten bands at 0 dB gain — the state of a freshly
constructed (and enabled) equalizer — `Process` is the identity transform
on every input sample list: at 0 dB each biquad's numerator equals its
denominator, so every sample passes through unchanged (exactly, over the
reals). -/
theorem equalizer_zero_gain_identity (samples : List ℝ) :
    (((NewEqualizer 44100).SetEnabled true).Process samples).1 = samples :=
  equalizer_process_id _ samples (fun i => newEqualizer_filters_idFilter i)

/-! ## Crossfader (dsp/effects.go) -/

/-- Embedding of the Go `Crossfader` struct. -/
structure Crossfader where
  position : ℝ
  curve : String
  enabled : Bool

/-- Embedding of `NewCrossfader`. -/
noncomputable def NewCrossfader : Crossfader :=
  { position := 0, curve := "equal_power", enabled := false }

/-- The `(gainA, gainB)` computation of `Crossfader.Mix`: the `switch` on
the curve name, with the linear curve as the `default` branch. -/
noncomputable def crossfadeGains (curve : String) (position : ℝ) : ℝ × ℝ :=
  if curve = "linear" then (1 - position, position)
  else if curve = "equal_power" then
    (Real.cos (position * Real.pi / 2), Real.sin (position * Real.pi / 2))
  else if curve = "logarithmic" then
    if position < 0.5 then (1, (position * 2) ^ 2 / 2)
    else (((1 - position) * 2) ^ 2 / 2, 1)
  else (1 - position, position)

/-- The mixing loop of `Crossfader.Mix`: for each output index, mix the
sources that still have a sample at that index, weighing by the two gains;
past both sources the output sample is zeroed. -/
noncomputable def mixLoop (gainA gainB : ℝ) (sourceA sourceB : List ℝ) :
    ℕ → List ℝ → List ℝ
  | _, [] => []
  | i, _ :: rest =>
    (if i < sourceA.length ∧ i < sourceB.length then
      sourceA.getD i 0 * gainA + sourceB.getD i 0 * gainB
    else if i < sourceA.length then sourceA.getD i 0 * gainA
    else if i < sourceB.length then sourceB.getD i 0 * gainB
    else 0) :: mixLoop gainA gainB sourceA sourceB (i + 1) rest

/-- Go's `copy(output, sourceA)`: the prefix of the output buffer is
overwritten from the source; entries past the source keep their value. -/
noncomputable def copyLoop (src : List ℝ) : ℕ → List ℝ → List ℝ
  | _, [] => []
  | i, o :: rest => (if i < src.length then src.getD i 0 else o) :: copyLoop src (i + 1) rest

/-- Embedding of `Crossfader.Mix`: copies source A when disabled, otherwise
computes the curve gains once and runs the mixing loop over the output
buffer. -/
noncomputable def Crossfader.Mix (c : Crossfader) (sourceA sourceB output : List ℝ) :
    List ℝ :=
  if c.enabled = false then copyLoop sourceA 0 output
  else
    let g := crossfadeGains c.curve c.position
    mixLoop g.1 g.2 sourceA sourceB 0 output

theorem mixLoop_gain_one_zero (A B : List ℝ) :
    ∀ (out : List ℝ) (i : ℕ), i + out.length = A.length → i + out.length = B.length →
      mixLoop 1 0 A B i out = A.drop i := by
  intro out
  induction out with
  | nil =>
    intro i hA _
    simp only [List.length_nil, Nat.add_zero] at hA
    rw [mixLoop, hA, List.drop_length]
  | cons o rest ih =>
    intro i hA hB
    simp only [List.length_cons] at hA hB
    have hiA : i < A.length := by omega
    have hiB : i < B.length := by omega
    rw [mixLoop, if_pos ⟨hiA, hiB⟩, ih (i + 1) (by omega) (by omega),
      List.drop_eq_getElem_cons hiA, List.getD_eq_getElem A 0 hiA]
    ring_nf

theorem mixLoop_gain_zero_one (A B : List ℝ) :
    ∀ (out : List ℝ) (i : ℕ), i + out.length = A.length → i + out.length = B.length →
      mixLoop 0 1 A B i out = B.drop i := by
  intro out
  induction out with
  | nil =>
    intro i _ hB
    simp only [List.length_nil, Nat.add_zero] at hB
    rw [mixLoop, hB, List.drop_length]
  | cons o rest ih =>
    intro i hA hB
    simp only [List.length_cons] at hA hB
    have hiA : i < A.length := by omega
    have hiB : i < B.length := by omega
    rw [mixLoop, if_pos ⟨hiA, hiB⟩, ih (i + 1) (by omega) (by omega),
      List.drop_eq_getElem_cons hiB, List.getD_eq_getElem B 0 hiB]
    ring_nf

/-- Claim C4.  On the equal-power curve the two gains satisfy
`gainA(p)² + gainB(p)² = 1` (exactly, over the reals); with matching buffer
lengths, mixing at position 0 returns source A and mixing at position 1
returns source B. -/
theorem crossfader_equal_power (p : ℝ) (_hp : p ∈ Set.Icc (0 : ℝ) 1)
    (A B out : List ℝ) (hA : out.length = A.length) (hB : out.length = B.length) :
    (crossfadeGains "equal_power" p).1 ^ 2 + (crossfadeGains "equal_power" p).2 ^ 2 = 1
    ∧ Crossfader.Mix ⟨0, "equal_power", true⟩ A B out = A
    ∧ Crossfader.Mix ⟨1, "equal_power", true⟩ A B out = B := by
  refine ⟨?_, ?_, ?_⟩
  · rw [crossfadeGains, if_neg (by decide), if_pos rfl]
    exact Real.cos_sq_add_sin_sq (p * Real.pi / 2)
  · rw [Crossfader.Mix, if_neg (by decide), crossfadeGains, if_neg (by decide), if_pos rfl]
    simp only [show (0 : ℝ) * Real.pi / 2 = 0 by ring, Real.cos_zero, Real.sin_zero]
    rw [mixLoop_gain_one_zero A B out 0 (by omega) (by omega), List.drop_zero]
  · rw [Crossfader.Mix, if_neg (by decide), crossfadeGains, if_neg (by decide), if_pos rfl]
    simp only [show (1 : ℝ) * Real.pi / 2 = Real.pi / 2 by ring,
      Real.cos_pi_div_two, Real.sin_pi_div_two]
    rw [mixLoop_gain_zero_one A B out 0 (by omega) (by omega), List.drop_zero]

/-- Witness for claim C4 at position 0 on one-sample buffers. -/
theorem crossfader_equal_power_witness :
    (crossfadeGains "equal_power" 0).1 ^ 2 + (crossfadeGains "equal_power" 0).2 ^ 2 = 1
    ∧ Crossfader.Mix ⟨0, "equal_power", true⟩ [1] [2] [5] = [1]
    ∧ Crossfader.Mix ⟨1, "equal_power", true⟩ [1] [2] [5] = [2] :=
  crossfader_equal_power 0 (by norm_num) [1] [2] [5] rfl rfl

/-! ## ReplayGain (dsp/effects.go) -/

/-- Embedding of the Go `ReplayGain` struct. -/
structure ReplayGain where
  trackGain : ℝ
  trackPeak : ℝ
  albumGain : ℝ
  albumPeak : ℝ
  mode : String
  preamp : ℝ
  enabled : Bool

/-- The gain selected by `ReplayGain.Process`: album values in album mode,
track values otherwise. -/
noncomputable def ReplayGain.gainFor (r : ReplayGain) : ℝ :=
  if r.mode = "album" then r.albumGain else r.trackGain

/-- The peak selected by `ReplayGain.Process`. -/
noncomputable def ReplayGain.peakFor (r : ReplayGain) : ℝ :=
  if r.mode = "album" then r.albumPeak else r.trackPeak

/-- The effective gain of `ReplayGain.Process`:
`totalGain = 10^((gain+preamp)/20)`, clamped to `1/peak` when
`peak > 0 && totalGain*peak > 1.0`. -/
noncomputable def ReplayGain.totalGain (r : ReplayGain) : ℝ :=
  let tg := Real.rpow 10 ((r.gainFor + r.preamp) / 20)
  if 0 < r.peakFor ∧ 1 < tg * r.peakFor then 1 / r.peakFor else tg

/-- The per-sample hard limit of `ReplayGain.Process`. -/
noncomputable def hardClip (s : ℝ) : ℝ :=
  if 1 < s then 1 else if s < -1 then -1 else s

/-- Embedding of `ReplayGain.Process`: returns the slice untouched when the
effect is disabled or the mode is "off"; otherwise multiplies every sample
by the effective gain and hard-clips it to `[-1, 1]`. -/
noncomputable def ReplayGain.Process (r : ReplayGain) (samples : List ℝ) : List ℝ :=
  if r.enabled = false ∨ r.mode = "off" then samples
  else samples.map (fun s => hardClip (s * r.totalGain))

theorem hardClip_mem (s : ℝ) : -1 ≤ hardClip s ∧ hardClip s ≤ 1 := by
  unfold hardClip
  split_ifs with h1 h2
  · norm_num
  · norm_num
  · constructor <;> linarith

/-- Counterexample to claim C3 as stated: with mode = "off" — one of the
configured modes the claim quantifies over — `Process` returns early and an
input sample of amplitude 2 stays at 2, outside `[-1, 1]`. -/
theorem replayGain_off_passthrough_cex :
    ¬(∀ x ∈ (ReplayGain.Process
        { trackGain := 0, trackPeak := 1, albumGain := 0, albumPeak := 1,
          mode := "off", preamp := 0, enabled := true } [2]),
        -1 ≤ x ∧ x ≤ 1) := by
  intro h
  have hx := h 2 (by rw [ReplayGain.Process, if_pos (Or.inr rfl)]; exact List.mem_singleton.mpr rfl)
  linarith [hx.2]

/-- Claim C3, amended.  Whenever the gain is actually applied (effect
enabled and mode not "off"), every sample of the processed slice lies in
`[-1, 1]`; moreover the total gain `10^((gain+preamp)/20)` is replaced by
`1/peak` exactly when `totalGain * peak > 1`, and each output sample is the
hard-clip of the scaled input sample. -/
theorem replayGain_process_bounded (r : ReplayGain) (samples : List ℝ)
    (henabled : r.enabled = true) (hmode : r.mode ≠ "off") :
    (∀ x ∈ r.Process samples, -1 ≤ x ∧ x ≤ 1)
    ∧ (1 < Real.rpow 10 ((r.gainFor + r.preamp) / 20) * r.peakFor →
        r.totalGain = 1 / r.peakFor)
    ∧ r.Process samples = samples.map (fun s => hardClip (s * r.totalGain)) := by
  have hcond : ¬(r.enabled = false ∨ r.mode = "off") := by
    rw [henabled]
    simp only [Bool.true_eq_false, false_or]
    exact hmode
  refine ⟨?_, ?_, ?_⟩
  · intro x hx
    rw [ReplayGain.Process, if_neg hcond] at hx
    obtain ⟨s, _, rfl⟩ := List.mem_map.mp hx
    exact hardClip_mem _
  · intro hover
    have htg : 0 < Real.rpow 10 ((r.gainFor + r.preamp) / 20) :=
      Real.rpow_pos_of_pos (by norm_num) _
    have hpeak : 0 < r.peakFor := by nlinarith
    rw [ReplayGain.totalGain, if_pos ⟨hpeak, hover⟩]
  · rw [ReplayGain.Process, if_neg hcond]

/-- A sample replay-gain configuration: track mode, +6 dB track gain. -/
noncomputable def rgSample : ReplayGain :=
  { trackGain := 6, trackPeak := 1, albumGain := 0, albumPeak := 1,
    mode := "track", preamp := 0, enabled := true }

/-- Witness for the amended claim C3 in track mode with a loud input: the
sample produced from the out-of-range input 2 lands in `[-1, 1]`. -/
theorem replayGain_process_bounded_witness :
    -1 ≤ hardClip (2 * rgSample.totalGain) ∧ hardClip (2 * rgSample.totalGain) ≤ 1 := by
  have h := replayGain_process_bounded rgSample [2] rfl (by decide)
  refine h.1 _ ?_
  rw [h.2.2]
  simp

/-! ## Player (player.go, first half)

The player model is stated over `ℚ`: a `time.Duration` is embedded as a
rational number of seconds.  The three control channels of the Go player
(`playing`, `stop`, `seekRequest`, all of capacity 1) are embedded as
single slots; the `select`/`default` sends used by `Stop` and `Seek` fill
an empty slot and are dropped against a full one.  The playback loop's
channel-servicing branches are embedded as the `serviceSeek` and
`serviceStop` functions.  Event emission and the audio output device are
external side effects and are not part of the player state. -/

/-- Embedding of the Go `PlayerState` enumeration. -/
inductive PlayerState where
  | Stopped
  | Playing
  | Paused
  | Buffering
  | Error
deriving DecidableEq

/-- The player error values: the sentinel errors of player.go plus its two
ad-hoc `errors.New`/`fmt.Errorf` cases. -/
inductive PlayerError where
  | noTrackLoaded
  | alreadyPlaying
  | notPlaying
  | trackNil
  | positionOutOfRange
  | decoderCreate (msg : String)
deriving DecidableEq

/-- The parts of `domain.Track` the player touches: the file path handed to
the decoder factory and the cached duration. -/
structure Track where
  FilePath : String
  Duration : ℚ
deriving DecidableEq

/-- Embedding of a decoder instance as the player sees it, following
`BaseDecoder`/`FLACDecoder` (decoder/interface.go, decoder/flac.go): total
and current sample counts and the sample rate. -/
structure Decoder where
  sampleRate : ℤ
  sampleCount : ℤ
  currentSample : ℤ
deriving DecidableEq

/-- Go `int64(x)` conversion from a fractional value: truncation toward
zero. -/
def truncToInt (q : ℚ) : ℤ :=
  if q < 0 then -(Int.floor (-q)) else Int.floor q

/-- Embedding of `BaseDecoder.Duration`: `0` when the sample rate is zero,
otherwise `sampleCount / sampleRate` seconds (Go computes this in integer
nanoseconds; the rational value is exact). -/
def Decoder.Duration (d : Decoder) : ℚ :=
  if d.sampleRate = 0 then 0 else (d.sampleCount : ℚ) / (d.sampleRate : ℚ)

/-- Embedding of `FLACDecoder.Seek`/`SeekSample`: the target sample is
`int64(position.Seconds() * sampleRate)`; out-of-range targets are
rejected, in-range targets reposition the stream (the Go code reparses the
stream and decodes `targetSample` samples forward, ending with
`currentSample = targetSample`). -/
def Decoder.Seek (d : Decoder) (position : ℚ) : Except String Decoder :=
  let targetSample := truncToInt (position * (d.sampleRate : ℚ))
  if targetSample < 0 ∨ d.sampleCount < targetSample then
    .error "sample position out of range"
  else .ok { d with currentSample := targetSample }

/-- Embedding of the Go `Player` struct fields with sequential content.
The buffers, mutexes, listener list and output device are omitted: the
claims under study are about state, position, duration, the decoder slots
and the three control slots.  (`prebuffer` is declared in the Go struct but
never assigned, so `len(p.prebuffer) > 0` is always false and the gapless
pre-buffer branch of `SetNextTrack` is dead code.) -/
structure Player where
  state : PlayerState
  currentTrack : Option Track
  nextTrack : Option Track
  position : ℚ
  duration : ℚ
  volume : ℚ
  speed : ℚ
  decoder : Option Decoder
  nextDecoder : Option Decoder
  playingSlot : Bool
  stopSlot : Bool
  seekSlot : Option ℚ
  crossfade : ℚ
  gapless : Bool
  fadeOnPause : Bool
  fadeDuration : ℚ
deriving DecidableEq

/-- Embedding of `NewPlayer` (crossfade 5 s, fade duration 200 ms). -/
def NewPlayer : Player :=
  { state := .Stopped, currentTrack := none, nextTrack := none
    position := 0, duration := 0, volume := 1, speed := 1
    decoder := none, nextDecoder := none
    playingSlot := false, stopSlot := false, seekSlot := none
    crossfade := 5, gapless := true, fadeOnPause := true, fadeDuration := 1/5 }

/-- Embedding of `Player.Load`: nil track is an error; the old decoder is
closed and cleared before the factory runs; on factory success the fresh
decoder is installed, position reset, duration taken from the decoder (and
written back into the track when the track had none), state set Stopped. -/
def Player.Load (createDecoder : String → Except String Decoder) (p : Player)
    (track : Option Track) : Player × Option PlayerError :=
  match track with
  | none => (p, some .trackNil)
  | some t =>
    let p1 := { p with decoder := none }
    match createDecoder t.FilePath with
    | .error e => (p1, some (.decoderCreate e))
    | .ok dec =>
      let t2 := if t.Duration = 0 then { t with Duration := dec.Duration } else t
      ({ p1 with
          decoder := some dec
          currentTrack := some t2
          position := 0
          duration := dec.Duration
          state := .Stopped }, none)

/-- Embedding of `Player.Play`: `NoTrackLoaded` without a decoder,
`AlreadyPlaying` when already Playing; from Paused or Stopped the state
becomes Playing and the playback loop is signalled (the Go send
`p.playing <- true` on the capacity-1 channel).  In the remaining states
(Buffering, Error) the Go `switch` has no case and `Play` returns nil
without changing anything. -/
def Player.Play (p : Player) : Player × Option PlayerError :=
  if p.decoder = none then (p, some .noTrackLoaded)
  else
    match p.state with
    | .Playing => (p, some .alreadyPlaying)
    | .Paused => ({ p with state := .Playing, playingSlot := true }, none)
    | .Stopped => ({ p with state := .Playing, playingSlot := true }, none)
    | _ => (p, none)

/-- Embedding of `Player.Pause`: `NotPlaying` unless Playing, otherwise the
state becomes Paused (the optional fade-out and `output.Pause()` only touch
the output device). -/
def Player.Pause (p : Player) : Player × Option PlayerError :=
  if p.state ≠ PlayerState.Playing then (p, some .notPlaying)
  else ({ p with state := .Paused }, none)

/-- Embedding of `Player.Stop`: an early nil return when already Stopped;
otherwise a non-blocking stop signal is submitted, the output is paused and
flushed (device side effect), position is reset and the state becomes
Stopped.  The returned error is always nil. -/
def Player.Stop (p : Player) : Player × Option PlayerError :=
  if p.state = PlayerState.Stopped then (p, none)
  else ({ p with stopSlot := true, position := 0, state := .Stopped }, none)

/-- Embedding of `Player.Seek`: `NoTrackLoaded` without a decoder; positions
outside `[0, duration]` are rejected; otherwise the position is submitted
to the playback loop with a non-blocking send on the capacity-1
`seekRequest` channel — if a seek is already pending the new one is
dropped. -/
def Player.Seek (p : Player) (position : ℚ) : Player × Option PlayerError :=
  if p.decoder = none then (p, some .noTrackLoaded)
  else if position < 0 ∨ p.duration < position then (p, some .positionOutOfRange)
  else
    ({ p with seekSlot :=
        match p.seekSlot with
        | none => some position
        | some q => some q }, none)

/-- Embedding of the `case position := <-p.seekRequest` branch of
`playbackLoop`/`processAudio`: take the pending seek, forward it to the
decoder, and on decoder success update the reported position (on decoder
failure the error is only logged). -/
def Player.serviceSeek (p : Player) : Player :=
  match p.seekSlot with
  | none => p
  | some position =>
    let p1 := { p with seekSlot := none }
    match p1.decoder with
    | none => p1
    | some d =>
      match d.Seek position with
      | .error _ => p1
      | .ok d2 => { p1 with decoder := some d2, position := position }

/-- Embedding of the `case <-p.stop` branch of `playbackLoop`: consume the
stop signal and close and clear the decoder. -/
def Player.serviceStop (p : Player) : Player :=
  if p.stopSlot then { p with stopSlot := false, decoder := none } else p

/-- Embedding of `Player.SetNextTrack`: a nil track clears the pending next
track and closes and clears the next decoder; otherwise a decoder is
created for the track's file — on factory failure the error is returned
with nothing changed, on success both next-track slots are filled.  (The
gapless pre-buffer `Decode` call is dead code, see `Player`.) -/
def Player.SetNextTrack (createDecoder : String → Except String Decoder) (p : Player)
    (track : Option Track) : Player × Option PlayerError :=
  match track with
  | none => ({ p with nextTrack := none, nextDecoder := none }, none)
  | some t =>
    match createDecoder t.FilePath with
    | .error e => (p, some (.decoderCreate e))
    | .ok dec => ({ p with nextTrack := some t, nextDecoder := some dec }, none)

/-- A sample decoder: 44100 Hz, 441000 samples, i.e. 10 seconds. -/
def decSample : Decoder := { sampleRate := 44100, sampleCount := 441000, currentSample := 0 }

/-- A decoder factory that always succeeds with `decSample`. -/
def cdSample : String → Except String Decoder := fun _ => .ok decSample

/-- A decoder factory that always fails. -/
def cdFail : String → Except String Decoder := fun _ => .error "unsupported audio format"

/-- A sample track handle. -/
def trackSample : Track := { FilePath := "track.flac", Duration := 0 }

/-- A player with a loaded 10-second track, stopped. -/
def loadedSample : Player :=
  { NewPlayer with decoder := some decSample, duration := 10 }

/-- A player with a loaded 10-second track, playing. -/
def playingSample : Player :=
  { NewPlayer with decoder := some decSample, duration := 10, state := .Playing }

theorem decoder_seek_ok (d : Decoder) (pos : ℚ) (hsr : 0 < d.sampleRate)
    (h0 : 0 ≤ pos) (h1 : pos ≤ d.Duration) :
    d.Seek pos = .ok { d with currentSample := truncToInt (pos * (d.sampleRate : ℚ)) } := by
  have hsrne : ¬ d.sampleRate = 0 := by omega
  have hsrq : (0 : ℚ) < (d.sampleRate : ℚ) := by exact_mod_cast hsr
  have hx0 : 0 ≤ pos * (d.sampleRate : ℚ) := mul_nonneg h0 (le_of_lt hsrq)
  have htr : truncToInt (pos * (d.sampleRate : ℚ)) = Int.floor (pos * (d.sampleRate : ℚ)) := by
    rw [truncToInt, if_neg (not_lt.mpr hx0)]
  have hge : (0 : ℤ) ≤ truncToInt (pos * (d.sampleRate : ℚ)) := by
    rw [htr]
    exact Int.floor_nonneg.mpr hx0
  have hub : pos * (d.sampleRate : ℚ) ≤ (d.sampleCount : ℚ) := by
    rw [Decoder.Duration, if_neg hsrne] at h1
    exact (le_div_iff₀ hsrq).mp h1
  have hle : truncToInt (pos * (d.sampleRate : ℚ)) ≤ d.sampleCount := by
    rw [htr]
    have hc : ((Int.floor (pos * (d.sampleRate : ℚ)) : ℤ) : ℚ) ≤ (d.sampleCount : ℚ) :=
      le_trans (Int.floor_le _) hub
    exact_mod_cast hc
  rw [Decoder.Seek, if_neg (by push_neg; exact ⟨hge, hle⟩)]

/-- Counterexample to claim C2 as stated: a player in state Playing need
not hold a decoder — `Load` clears the decoder before running the factory
and on factory failure returns with the state untouched — and on such a
player `Play()` returns `ErrNoTrackLoaded`, not `ErrAlreadyPlaying`.
Concretely: a playing player after a failed `Load` is still Playing, and
`Play()` on it yields the no-track error. -/
theorem player_play_noTrack_while_playing_cex :
    (playingSample.Load cdFail (some trackSample)).1.state = PlayerState.Playing
    ∧ ((playingSample.Load cdFail (some trackSample)).1.Play).2
        = some PlayerError.noTrackLoaded
    ∧ ¬(PlayerError.noTrackLoaded = PlayerError.alreadyPlaying) := by
  refine ⟨rfl, ?_, by decide⟩
  rw [Player.Load, cdFail, Player.Play, if_pos rfl]

/-- Claim C2, amended.  `Play()` in state Playing returns
`ErrAlreadyPlaying` and changes nothing provided a decoder is loaded; when
no decoder is loaded (reachable, e.g. after a failed `Load`, even in state
Playing) `Play()` returns `ErrNoTrackLoaded` and changes nothing.
`Pause()` in any state other than Playing (Stopped in particular) returns
`ErrNotPlaying` and changes nothing. -/
theorem player_play_pause_errors (p : Player) :
    (p.state = .Playing → p.decoder ≠ none → p.Play = (p, some .alreadyPlaying))
    ∧ (p.decoder = none → p.Play = (p, some .noTrackLoaded))
    ∧ (p.state ≠ .Playing → p.Pause = (p, some .notPlaying)) := by
  refine ⟨?_, ?_, ?_⟩
  · intro h hdec
    rw [Player.Play, if_neg hdec, h]
  · intro h
    rw [Player.Play, if_pos h]
  · intro h
    rw [Player.Pause, if_pos h]

/-- Witness for the amended claim C2: a playing player with a track, a
fresh player without one, and a stopped player for `Pause`. -/
theorem player_play_pause_errors_witness :
    playingSample.Play = (playingSample, some .alreadyPlaying)
    ∧ NewPlayer.Play = (NewPlayer, some .noTrackLoaded)
    ∧ loadedSample.Pause = (loadedSample, some .notPlaying) :=
  ⟨(player_play_pause_errors playingSample).1 rfl (by decide),
    (player_play_pause_errors NewPlayer).2.1 rfl,
    (player_play_pause_errors loadedSample).2.2 (by decide)⟩

/-- Counterexample to claim C1 as stated: the non-blocking submit is not
latest-wins.  On a player with a loaded 10-second track, submitting
`Seek 3` and then `Seek 5` before the playback loop services the channel
leaves the pending request at 3 — the second seek is dropped, it does not
overwrite — and the serviced position is 3, not 5. -/
theorem player_seek_latest_wins_cex :
    (((loadedSample.Seek 3).1.Seek 5).1.seekSlot = some 3)
    ∧ (((loadedSample.Seek 3).1.Seek 5).1.serviceSeek.position = 3)
    ∧ ¬((3 : ℚ) = 5) := by
  have h1 : (loadedSample.Seek 3).1 = { loadedSample with seekSlot := some 3 } := by
    simp [Player.Seek, loadedSample, NewPlayer] <;> norm_num
  have h2 : (({ loadedSample with seekSlot := some 3 } : Player).Seek 5).1 =
      { loadedSample with seekSlot := some 3 } := by
    simp [Player.Seek, loadedSample, NewPlayer] <;> norm_num
  have h3 : ({ loadedSample with seekSlot := some 3 } : Player).serviceSeek.position = 3 := by
    simp [Player.serviceSeek, Decoder.Seek, truncToInt, decSample, loadedSample, NewPlayer] <;>
      norm_num
  rw [h1, h2]
  exact ⟨rfl, h3, by norm_num⟩

/-- Claim C1, amended.  With a decoder loaded, `Seek(pos)` errors exactly
when `pos < 0` or `pos > duration`, and on that rejection the whole player
— state and reported position included — is unchanged.  For
`0 ≤ pos ≤ duration` the submit is accepted (nil error) without touching
state or position; if no earlier seek is pending the request is recorded
and, once serviced by the playback loop, the reported position equals `pos`
and the state is unchanged; if an earlier seek is still pending the new
request is dropped and the pending one stays (first-wins, not
latest-wins). -/
theorem player_seek_contract (p : Player) (d : Decoder) (pos : ℚ)
    (hdec : p.decoder = some d) (hdur : p.duration = d.Duration)
    (hsr : 0 < d.sampleRate) :
    ((pos < 0 ∨ p.duration < pos) → p.Seek pos = (p, some .positionOutOfRange))
    ∧ (0 ≤ pos → pos ≤ p.duration →
        (p.Seek pos).2 = none
        ∧ (p.Seek pos).1.state = p.state
        ∧ (p.Seek pos).1.position = p.position
        ∧ (∀ q, p.seekSlot = some q → (p.Seek pos).1.seekSlot = some q)
        ∧ (p.seekSlot = none →
            (p.Seek pos).1.seekSlot = some pos
            ∧ (p.Seek pos).1.serviceSeek.position = pos
            ∧ (p.Seek pos).1.serviceSeek.state = p.state)) := by
  have hdecne : ¬ p.decoder = none := by rw [hdec]; simp
  constructor
  · intro h
    rw [Player.Seek, if_neg hdecne, if_pos h]
  · intro h0 h1
    have hcond : ¬(pos < 0 ∨ p.duration < pos) := by
      push_neg
      exact ⟨h0, h1⟩
    rw [Player.Seek, if_neg hdecne, if_neg hcond]
    refine ⟨rfl, rfl, rfl, ?_, ?_⟩
    · intro q hq
      simp only [hq]
    · intro hnone
      rw [hnone]
      refine ⟨rfl, ?_, ?_⟩ <;>
        simp only [Player.serviceSeek, hdec,
          decoder_seek_ok d pos hsr h0 (hdur ▸ h1)]

/-- Witness for the amended claim C1 on a loaded 10-second player: seeking
to 3 is accepted and serviced at 3; seeking to 11 is rejected. -/
theorem player_seek_contract_witness :
    (loadedSample.Seek 3).2 = none
    ∧ (loadedSample.Seek 3).1.serviceSeek.position = 3
    ∧ loadedSample.Seek 11 = (loadedSample, some .positionOutOfRange) := by
  have h3 := (player_seek_contract loadedSample decSample 3 rfl
    (by norm_num [loadedSample, NewPlayer, decSample, Decoder.Duration]) (by decide)).2
    (by norm_num) (by norm_num [loadedSample])
  have h11 := (player_seek_contract loadedSample decSample 11 rfl
    (by norm_num [loadedSample, NewPlayer, decSample, Decoder.Duration]) (by decide)).1
    (Or.inr (by norm_num [loadedSample]))
  exact ⟨h3.1, (h3.2.2.2.2 rfl).2.1, h11⟩

/-- A stopped player with a loaded track whose reported position is 5:
reached from a stopped player with a loaded 10-second track by letting the
loop service a `Seek 5` while stopped (the playback loop serves
`seekRequest` in every state). -/
def stopCexPlayer : Player :=
  ((loadedSample.Seek 5).1).serviceSeek

/-- Counterexample to claim C8 as stated: `Stop()` in state Stopped is an
early-return no-op, so on this reachable stopped player with position 5 it
neither resets the position to 0 nor tears down the still-loaded decoder
(nor pauses/flushes the output). -/
theorem player_stop_noop_when_stopped_cex :
    stopCexPlayer.state = .Stopped
    ∧ stopCexPlayer.Stop = (stopCexPlayer, none)
    ∧ stopCexPlayer.position = 5
    ∧ ¬ stopCexPlayer.decoder = none
    ∧ ¬((5 : ℚ) = 0) := by
  have h1 : (loadedSample.Seek 5).1 = { loadedSample with seekSlot := some 5 } := by
    simp [Player.Seek, loadedSample, NewPlayer] <;> norm_num
  have h2 : stopCexPlayer = { loadedSample with
      seekSlot := none
      decoder := some { decSample with currentSample := 220500 }
      position := 5 } := by
    rw [stopCexPlayer, h1]
    simp [Player.serviceSeek, Decoder.Seek, truncToInt, decSample, loadedSample, NewPlayer] <;>
      norm_num
  rw [h2]
  refine ⟨rfl, ?_, rfl, by simp, by norm_num⟩
  simp [Player.Stop, loadedSample, NewPlayer]

/-- Claim C8, amended.  `Stop()` always returns nil and leaves the player
in state Stopped; from a non-Stopped state it resets the position to 0,
signals the playback loop (which tears down the decoder) and pauses and
flushes the output; from state Stopped it is a no-op.  It is idempotent: a
second call immediately afterwards returns nil and changes nothing. -/
theorem player_stop_idempotent (p : Player) :
    (p.Stop).2 = none
    ∧ (p.Stop).1.state = .Stopped
    ∧ (p.Stop).1.Stop = ((p.Stop).1, none)
    ∧ (p.state ≠ .Stopped →
        (p.Stop).1.position = 0 ∧ (p.Stop).1.stopSlot = true
        ∧ (p.Stop).1.serviceStop.decoder = none) := by
  by_cases h : p.state = PlayerState.Stopped
  · rw [Player.Stop, if_pos h]
    exact ⟨rfl, h, by rw [Player.Stop, if_pos h], fun hc => absurd h hc⟩
  · rw [Player.Stop, if_neg h]
    refine ⟨rfl, rfl, by rw [Player.Stop, if_pos rfl], fun _ => ⟨rfl, rfl, ?_⟩⟩
    rw [Player.serviceStop, if_pos rfl]

/-- Witness for the amended claim C8 on a concrete playing player. -/
theorem player_stop_idempotent_witness :
    (playingSample.Stop).1.position = 0
    ∧ (playingSample.Stop).1.serviceStop.decoder = none := by
  have h := (player_stop_idempotent playingSample).2.2.2 (by decide)
  exact ⟨h.1, h.2.2⟩

/-- Claim C9.  `SetNextTrack(nil)` returns nil and clears the pending next
track and the next decoder; and whenever `SetNextTrack` returns an error,
the track was non-nil, the decoder factory failed on its file, the error
wraps the factory error, and the player is unchanged. -/
theorem player_setNextTrack_contract (createDecoder : String → Except String Decoder)
    (p : Player) :
    p.SetNextTrack createDecoder none = ({ p with nextTrack := none, nextDecoder := none }, none)
    ∧ ∀ track err, (p.SetNextTrack createDecoder track).2 = some err →
        (∃ t e, track = some t ∧ createDecoder t.FilePath = .error e
          ∧ err = .decoderCreate e)
        ∧ (p.SetNextTrack createDecoder track).1 = p := by
  constructor
  · rfl
  · intro track err h
    cases track with
    | none => simp [Player.SetNextTrack] at h
    | some t =>
      cases hcd : createDecoder t.FilePath with
      | error e =>
        simp only [Player.SetNextTrack, hcd] at h
        obtain rfl : PlayerError.decoderCreate e = err := Option.some_injective _ h
        exact ⟨⟨t, e, rfl, hcd, rfl⟩, by simp [Player.SetNextTrack, hcd]⟩
      | ok dec =>
        simp [Player.SetNextTrack, hcd] at h

/-- Witness for claim C9: clearing the next track always succeeds, and a
failing decoder factory leaves the player unchanged. -/
theorem player_setNextTrack_contract_witness :
    (NewPlayer.SetNextTrack cdFail none).2 = none
    ∧ (NewPlayer.SetNextTrack cdFail (some trackSample)).1 = NewPlayer := by
  have h := player_setNextTrack_contract cdFail NewPlayer
  exact ⟨by rw [h.1],
    (h.2 (some trackSample) (.decoderCreate "unsupported audio format") (by decide)).2⟩

end Winramp
